import Mathlib

/-!
Verification of the Groth-Sahai commitment-group algebra and commitment
scheme of this repository.  The Rust sources are shallowly embedded:

* `src/algebra/com.rs`    → `GS.Com` and its operations,
* `src/algebra/com_t.rs`  → `GS.ComT`, `GS.ComT.pairing`, `GS.ComT.pairing_sum`,
* `src/algebra/matrix.rs` → `GS.Matrix` with `left_mul`, `from_vecs`, `to_vecs`
  and the `Vec<Vec<T>>`-based canonical (de)serialization,
* `src/prover/commit.rs`  → `GS.Commit` and the eight commit functions,
* `src/data_structures.rs` (legacy duplicate module) → `GS.DataStructures`.

The bilinear-group adapter (scalar field, groups, pairing, element codec)
is external to the repository; it is represented by type parameters with
the algebraic structure the adapter contract promises, and the pairing and
byte codecs are passed as parameters together with their contracts.
Randomness sources are modelled as streams `ℕ → F` with an explicit read
position, so that the exact number of scalars a function draws is visible
in its result.
-/

namespace GS

/-- An element of the commitment group `B1`/`B2`: an ordered pair of group
elements (`Com` in `src/algebra/com.rs`). -/
structure Com (G : Type) where
  c0 : G
  c1 : G
deriving DecidableEq

namespace Com

variable {G : Type} {F : Type}

/-- Componentwise addition (`impl Add for Com` in `src/algebra/com.rs`). -/
def add [Add G] (x y : Com G) : Com G :=
  ⟨x.c0 + y.c0, x.c1 + y.c1⟩

/-- Componentwise negation (`impl Neg for Com`). -/
def neg [Neg G] (x : Com G) : Com G :=
  ⟨-x.c0, -x.c1⟩

/-- The zero element `(O, O)` (`impl Zero for Com`). -/
def zero [Zero G] : Com G :=
  ⟨0, 0⟩

/-- Entry-wise scalar multiplication (`Com::scalar_mul`). -/
def scalar_mul [SMul F G] (x : Com G) (r : F) : Com G :=
  ⟨r • x.c0, r • x.c1⟩

/-- The `Com::linear_map`: embeds a bare group element as `(O, x)`. -/
def linear_map [Zero G] (x : G) : Com G :=
  ⟨0, x⟩

/-- The `Com::batch_linear_map`: elementwise `linear_map`. -/
def batch_linear_map [Zero G] (xs : List G) : List (Com G) :=
  xs.map linear_map

/-- The `Com::scalar_linear_map`: `(self + linear_map p).scalar_mul x`. -/
def scalar_linear_map [Zero G] [Add G] [SMul F G] (b : Com G) (x : F) (p : G) : Com G :=
  (b.add (linear_map p)).scalar_mul x

/-- The `Com::batch_scalar_linear_map`: elementwise `scalar_linear_map`. -/
def batch_scalar_linear_map [Zero G] [Add G] [SMul F G] (b : Com G) (xs : List F) (p : G) :
    List (Com G) :=
  xs.map (fun x => b.scalar_linear_map x p)

end Com

/-- The `impl Add for Com` as the canonical `Add` instance. -/
instance {G : Type} [Add G] : Add (Com G) :=
  ⟨Com.add⟩

/-- The `impl Zero for Com` as the canonical `Zero` instance. -/
instance {G : Type} [Zero G] : Zero (Com G) :=
  ⟨Com.zero⟩

/-- The `impl Neg for Com` as the canonical `Neg` instance. -/
instance {G : Type} [Neg G] : Neg (Com G) :=
  ⟨Com.neg⟩

/-- The target commitment group `BT`: a 2×2 block of pairing outputs
(`ComT` in `src/algebra/com_t.rs`), stored in the declared field order
`(t00, t01, t10, t11)`. -/
structure ComT (T : Type) where
  t00 : T
  t01 : T
  t10 : T
  t11 : T
deriving DecidableEq

namespace ComT

variable {T : Type}

/-- Componentwise addition (`impl Add for ComT`). -/
def add [Add T] (x y : ComT T) : ComT T :=
  ⟨x.t00 + y.t00, x.t01 + y.t01, x.t10 + y.t10, x.t11 + y.t11⟩

/-- The zero element (`impl Zero for ComT`): all four cells zero. -/
def zero [Zero T] : ComT T :=
  ⟨0, 0, 0, 0⟩

/-- The `ComT::pairing`: the full 2×2 cross-pairing of a `Com1` and a `Com2`. -/
def pairing {G1 G2 : Type} (e : G1 → G2 → T) (x : Com G1) (y : Com G2) : ComT T :=
  ⟨e x.c0 y.c0, e x.c0 y.c1, e x.c1 y.c0, e x.c1 y.c1⟩

end ComT

/-- The external adapter's batched multi-pairing: the sum of `e` over the
zipped input iterators, starting from the additive identity of the target
group (the contract of `Pairing::multi_pairing`). -/
def multi_pairing {G1 G2 T : Type} [Zero T] [Add T] (e : G1 → G2 → T)
    (xs : List G1) (ys : List G2) : T :=
  (List.zipWith e xs ys).foldl (· + ·) 0

/-- The `ComT::pairing_sum` (`src/algebra/com_t.rs`): asserts that the two
input slices have equal length, then computes each of the four output
cells with one batched multi-pairing.  The failed assertion (a panic) is
modelled as `none`; it fires before any pairing is computed. -/
def pairing_sum {G1 G2 T : Type} [Zero T] [Add T] (e : G1 → G2 → T)
    (x_vec : List (Com G1)) (y_vec : List (Com G2)) : Option (ComT T) :=
  if x_vec.length = y_vec.length then
    some ⟨multi_pairing e (x_vec.map Com.c0) (y_vec.map Com.c0),
          multi_pairing e (x_vec.map Com.c0) (y_vec.map Com.c1),
          multi_pairing e (x_vec.map Com.c1) (y_vec.map Com.c0),
          multi_pairing e (x_vec.map Com.c1) (y_vec.map Com.c1)⟩
  else
    none

/-- A rectangular row-major matrix (`Matrix` in `src/algebra/matrix.rs`,
backed by `ndarray::Array2`): a shape `(rows, cols)` plus the flat
row-major data.  Well-formedness (`data.length = rows * cols`) is the
`ndarray` shape invariant, maintained by every constructor. -/
structure Matrix (F : Type) where
  rows : ℕ
  cols : ℕ
  data : List F
deriving DecidableEq

namespace Matrix

variable {F : Type}

/-- The `ndarray` shape invariant: the flat buffer holds exactly
`rows * cols` entries. -/
def wf (m : Matrix F) : Prop :=
  m.data.length = m.rows * m.cols

instance (m : Matrix F) : Decidable m.wf := by
  unfold wf; infer_instance

/-- The `Matrix::dim`. -/
def dim (m : Matrix F) : ℕ × ℕ :=
  (m.rows, m.cols)

/-- The `Matrix::zeros_column`: an array with zero rows and `n` columns. -/
def zeros_column (n : ℕ) : Matrix F :=
  ⟨0, n, []⟩

/-- Entry access (`Index<(usize, usize)>` on the row-major buffer). -/
def get [Zero F] (m : Matrix F) (i j : ℕ) : F :=
  m.data.getD (i * m.cols + j) 0

/-- The `Matrix::rand`: fills the shape `(rows, cols)` in row-major order with
scalars drawn sequentially from the stream, returning the matrix and the
next unread stream position. -/
def rand (s : ℕ → F) (p : ℕ) (rows cols : ℕ) : Matrix F × ℕ :=
  (⟨rows, cols, (List.range (rows * cols)).map (fun t => s (p + t))⟩, p + rows * cols)

/-- The `Matrix::to_vecs`: the rows of the matrix as nested lists. -/
def to_vecsAux (cols : ℕ) : ℕ → List F → List (List F)
  | 0, _ => []
  | r + 1, d => d.take cols :: to_vecsAux cols r (d.drop cols)

/-- The `Matrix::to_vecs`. -/
def to_vecs (m : Matrix F) : List (List F) :=
  to_vecsAux m.cols m.rows m.data

/-- The `Matrix::from_vecs`: rebuilds a matrix from nested rows.  The source
indexes `vecs[0]` (a panic on an empty outer vector) and then calls
`Array::from_shape_vec(...).unwrap()` (a panic when the flattened length
does not match `rows * cols`); both panics are modelled as `none`. -/
def from_vecs (vecs : List (List F)) : Option (Matrix F) :=
  match vecs with
  | [] => none
  | v0 :: _ =>
    let flat := vecs.flatten
    if flat.length = vecs.length * v0.length then
      some ⟨vecs.length, v0.length, flat⟩
    else
      none

/-- Componentwise matrix addition (both `Mat` impls use `ndarray` `+`). -/
def add [Add F] (m other : Matrix F) : Matrix F :=
  ⟨m.rows, m.cols, List.zipWith (· + ·) m.data other.data⟩

/-- The `Matrix<Com<G>>::left_mul` (`src/algebra/matrix.rs`): standard matrix
multiplication `lhs * self` where each entry multiply is the module action
`Com::scalar_mul` and each output cell accumulates with `Com`'s `Sum`
(a fold starting from `Com::zero`). -/
def left_mul {G : Type} [Zero G] [Add G] [SMul F G] [Zero F]
    (self : Matrix (Com G)) (lhs : Matrix F) : Matrix (Com G) :=
  ⟨lhs.rows, self.cols,
    (List.range lhs.rows).flatMap (fun i =>
      (List.range self.cols).map (fun j =>
        (List.range self.rows).foldl
          (fun acc k => acc.add ((self.data.getD (k * self.cols + j) Com.zero).scalar_mul
            (lhs.get i k)))
          Com.zero))⟩

end Matrix

/-- The `vec_to_col_vec`: a list as an `n × 1` column matrix. -/
def vec_to_col_vec {F : Type} (v : List F) : Matrix F :=
  ⟨v.length, 1, v⟩

/-- The `col_vec_to_vec`: the flat row-major data of a matrix as a list. -/
def col_vec_to_vec {F : Type} (m : Matrix F) : List F :=
  m.data

/-- Modelled from the spec: the CRS structure lives in `src/generator.rs`,
which is not among the provided sources.  Per the spec it holds two
generators `g1_gen ∈ G1`, `g2_gen ∈ G2` and two 2-entry vectors `u` (of
`Com1`) and `v` (of `Com2`); the 2-entry vectors are modelled as explicit
pairs of fields.  The commit functions only read these fields. -/
structure CRS (G1 G2 F : Type) where
  g1_gen : G1
  g2_gen : G2
  u0 : Com G1
  u1 : Com G1
  v0 : Com G2
  v1 : Com G2

/-- The CRS vector `u` as the list the source stores (`key.u`). -/
def CRS.u {G1 G2 F : Type} (key : CRS G1 G2 F) : List (Com G1) :=
  [key.u0, key.u1]

/-- The CRS vector `v` as the list the source stores (`key.v`). -/
def CRS.v {G1 G2 F : Type} (key : CRS G1 G2 F) : List (Com G2) :=
  [key.v0, key.v1]

/-- A commitment together with its private randomness.  `Commit1` and
`Commit2` in `src/prover/commit.rs` are two structs of this identical
shape (`coms: Vec<Com<G>>`, `rand: Matrix<ScalarField>`), declared in
this field order; both derive `CanonicalSerialize`/`CanonicalDeserialize`
and compare both fields for equality. -/
structure Commit (G F : Type) where
  coms : List (Com G)
  rand : Matrix F
deriving DecidableEq

section CommitFunctions

variable {G1 G2 F : Type} [Zero G1] [Add G1] [SMul F G1] [Zero G2] [Add G2] [SMul F G2]
variable [Zero F]

/-- The `commit_G1` (`src/prover/commit.rs`): draws `(r1, r2)` from the
randomness source and returns `linear_map x + u0·r1 + u1·r2` as the sole
commitment, with `rand = [[r1, r2]]`.  The second component of the result
is the next unread position of the randomness stream. -/
def commit_G1 (xvar : G1) (key : CRS G1 G2 F) (s : ℕ → F) (p : ℕ) :
    Commit G1 F × ℕ :=
  let r1 := s p
  let r2 := s (p + 1)
  ({ coms := [((Com.linear_map xvar).add
        (((vec_to_col_vec key.u).get 0 0).scalar_mul r1)).add
        (((vec_to_col_vec key.u).get 1 0).scalar_mul r2)],
     rand := ⟨1, 2, [r1, r2]⟩ }, p + 2)

/-- The `batch_commit_G1` (`src/prover/commit.rs`): draws an `m × 2` random
matrix `R` and computes `lin_x + left_mul(u_col, R)` over all inputs at
once. -/
def batch_commit_G1 (xvars : List G1) (key : CRS G1 G2 F) (s : ℕ → F) (p : ℕ) :
    Commit G1 F × ℕ :=
  let m := xvars.length
  let Rp := Matrix.rand s p m 2
  let lin_x := vec_to_col_vec (Com.batch_linear_map xvars)
  let coms := lin_x.add ((vec_to_col_vec key.u).left_mul Rp.1)
  ({ coms := col_vec_to_vec coms, rand := Rp.1 }, Rp.2)

/-- The `commit_scalar_to_B1`: draws one scalar `r` and returns
`u1.scalar_linear_map(x, g1_gen) + u0·r` with `rand = [[r]]`. -/
def commit_scalar_to_B1 (scalar_xvar : F) (key : CRS G1 G2 F) (s : ℕ → F) (p : ℕ) :
    Commit G1 F × ℕ :=
  let r := s p
  ({ coms := [(key.u1.scalar_linear_map scalar_xvar key.g1_gen).add
        (((vec_to_col_vec key.u).get 0 0).scalar_mul r)],
     rand := ⟨1, 1, [r]⟩ }, p + 1)

/-- The `batch_commit_scalar_to_B1`: draws an `m' × 1` random matrix `r` and
adds `u0·rᵢ` to each scalar linear map. -/
def batch_commit_scalar_to_B1 (scalar_xvars : List F) (key : CRS G1 G2 F)
    (s : ℕ → F) (p : ℕ) : Commit G1 F × ℕ :=
  let mprime := scalar_xvars.length
  let rp := Matrix.rand s p mprime 1
  let slin_x := vec_to_col_vec (key.u1.batch_scalar_linear_map scalar_xvars key.g1_gen)
  let ru := vec_to_col_vec
    ((col_vec_to_vec rp.1).map (fun sca => ((vec_to_col_vec key.u).get 0 0).scalar_mul sca))
  let coms := slin_x.add ru
  ({ coms := col_vec_to_vec coms, rand := rp.1 }, rp.2)

/-- The `commit_G2`: the `G2`/`v` mirror of `commit_G1`. -/
def commit_G2 (yvar : G2) (key : CRS G1 G2 F) (s : ℕ → F) (p : ℕ) :
    Commit G2 F × ℕ :=
  let s1 := s p
  let s2 := s (p + 1)
  ({ coms := [((Com.linear_map yvar).add
        (((vec_to_col_vec key.v).get 0 0).scalar_mul s1)).add
        (((vec_to_col_vec key.v).get 1 0).scalar_mul s2)],
     rand := ⟨1, 2, [s1, s2]⟩ }, p + 2)

/-- The `batch_commit_G2`: the `G2`/`v` mirror of `batch_commit_G1`. -/
def batch_commit_G2 (yvars : List G2) (key : CRS G1 G2 F) (s : ℕ → F) (p : ℕ) :
    Commit G2 F × ℕ :=
  let n := yvars.length
  let Sp := Matrix.rand s p n 2
  let lin_y := vec_to_col_vec (Com.batch_linear_map yvars)
  let coms := lin_y.add ((vec_to_col_vec key.v).left_mul Sp.1)
  ({ coms := col_vec_to_vec coms, rand := Sp.1 }, Sp.2)

/-- The `commit_scalar_to_B2`: the `G2`/`v` mirror of `commit_scalar_to_B1`. -/
def commit_scalar_to_B2 (scalar_yvar : F) (key : CRS G1 G2 F) (s : ℕ → F) (p : ℕ) :
    Commit G2 F × ℕ :=
  let r := s p
  ({ coms := [(key.v1.scalar_linear_map scalar_yvar key.g2_gen).add
        (((vec_to_col_vec key.v).get 0 0).scalar_mul r)],
     rand := ⟨1, 1, [r]⟩ }, p + 1)

/-- The `batch_commit_scalar_to_B2`: the `G2`/`v` mirror of
`batch_commit_scalar_to_B1`. -/
def batch_commit_scalar_to_B2 (scalar_yvars : List F) (key : CRS G1 G2 F)
    (s : ℕ → F) (p : ℕ) : Commit G2 F × ℕ :=
  let nprime := scalar_yvars.length
  let sp := Matrix.rand s p nprime 1
  let slin_y := vec_to_col_vec (key.v1.batch_scalar_linear_map scalar_yvars key.g2_gen)
  let sv := vec_to_col_vec
    ((col_vec_to_vec sp.1).map (fun sca => ((vec_to_col_vec key.v).get 0 0).scalar_mul sca))
  let coms := slin_y.add sv
  ({ coms := col_vec_to_vec coms, rand := sp.1 }, sp.2)

end CommitFunctions

/- The legacy duplicate algebra module `src/data_structures.rs`
(old `PairingEngine` API, where the pairing target `Fqk` is a
multiplicative group). -/
namespace DataStructures

/-- Legacy `Com1`: pair of `G1` affine points. -/
structure Com1 (G1 : Type) where
  c0 : G1
  c1 : G1
deriving DecidableEq

/-- Legacy `Com2`: pair of `G2` affine points. -/
structure Com2 (G2 : Type) where
  c0 : G2
  c1 : G2
deriving DecidableEq

/-- Legacy `ComT`: quadruple of `Fqk` elements. -/
structure ComT (Fqk : Type) where
  t00 : Fqk
  t01 : Fqk
  t10 : Fqk
  t11 : Fqk
deriving DecidableEq

/-- Legacy `Com1::zero` (`impl Zero for Com1`). -/
def Com1.zero {G1 : Type} [Zero G1] : Com1 G1 :=
  ⟨0, 0⟩

/-- Legacy `Com2::zero` (`impl Zero for Com2`). -/
def Com2.zero {G2 : Type} [Zero G2] : Com2 G2 :=
  ⟨0, 0⟩

/-- Legacy `BT::pairing` for `ComT` (`impl BT for ComT` in
`src/data_structures.rs`): entry-wise pairing products, with the old
`PairingEngine::pairing` returning elements of the multiplicative group
`Fqk`. -/
def ComT.pairing {G1 G2 Fqk : Type} (e : G1 → G2 → Fqk) (x : Com1 G1) (y : Com2 G2) :
    ComT Fqk :=
  ⟨e x.c0 y.c0, e x.c0 y.c1, e x.c1 y.c0, e x.c1 y.c1⟩

/-- The quadruple of multiplicative identities `Fqk::one()`, the value the
legacy module's tests expect for pairings against a zero commitment. -/
def ComT.ones {Fqk : Type} [One Fqk] : ComT Fqk :=
  ⟨1, 1, 1, 1⟩

end DataStructures

/- Byte-level serialization model.  The field/group element codec is the
external adapter capability; the `Vec<T>` framing (a little-endian `u64`
length prefix followed by the concatenated element encodings) is the
`ark-serialize` format through which `Matrix`, `Commit1` and `Commit2`
define their canonical encodings.  Bytes are modelled as natural numbers
below 256. -/

/-- The `k` little-endian base-256 bytes of `n` (the `u64` length prefix for
`k = 8`). -/
def serBytes : ℕ → ℕ → List ℕ
  | 0, _ => []
  | k + 1, n => n % 256 :: serBytes k (n / 256)

/-- Reads `k` little-endian base-256 bytes. -/
def deserBytes : ℕ → List ℕ → Option (ℕ × List ℕ)
  | 0, bs => some (0, bs)
  | _ + 1, [] => none
  | k + 1, b :: bs => (deserBytes k bs).map (fun mr => (b + 256 * mr.1, mr.2))

/-- The `ark-serialize` `Vec` encoding: `u64` little-endian length prefix,
then each element's encoding in order. -/
def serList {α : Type} (sf : α → List ℕ) (xs : List α) : List ℕ :=
  serBytes 8 xs.length ++ (xs.map sf).flatten

/-- Reads `n` consecutive elements with the element decoder, propagating
any element decode failure. -/
def deserCount {α : Type} (df : List ℕ → Option (α × List ℕ)) :
    ℕ → List ℕ → Option (List α × List ℕ)
  | 0, bs => some ([], bs)
  | n + 1, bs =>
    (df bs).bind (fun ar =>
      (deserCount df n ar.2).map (fun lr => (ar.1 :: lr.1, lr.2)))

/-- The `ark-serialize` `Vec` decoding: reads the `u64` length prefix and
then that many elements. -/
def deserList {α : Type} (df : List ℕ → Option (α × List ℕ)) (bs : List ℕ) :
    Option (List α × List ℕ) :=
  (deserBytes 8 bs).bind (fun nr => deserCount df nr.1 nr.2)

/-- Outcome of a deserialization call: a decoded value with the remaining
bytes, a `SerializationError` returned to the caller, or a panic. -/
inductive DeResult (α : Type) where
  | ok : α → List ℕ → DeResult α
  | error : DeResult α
  | panic : DeResult α
deriving DecidableEq

/-- The derived `CanonicalSerialize` for `Com` (`src/algebra/com.rs`):
the two affine points in declared field order. -/
def serCom {G : Type} (sg : G → List ℕ) (x : Com G) : List ℕ :=
  sg x.c0 ++ sg x.c1

/-- The derived `CanonicalDeserialize` for `Com`. -/
def deserCom {G : Type} (dg : List ℕ → Option (G × List ℕ)) (bs : List ℕ) :
    Option (Com G × List ℕ) :=
  (dg bs).bind (fun ar => (dg ar.2).map (fun br => (⟨ar.1, br.1⟩, br.2)))

/-- Embedding of `Matrix`'s `CanonicalSerialize` (`src/algebra/matrix.rs`): the
`Vec<Vec<T>>` encoding of `to_vecs`. -/
def serMatrix {F : Type} (sf : F → List ℕ) (m : Matrix F) : List ℕ :=
  serList (serList sf) m.to_vecs

/-- Embedding of `Matrix`'s `CanonicalDeserialize` (`src/algebra/matrix.rs`): decodes a
`Vec<Vec<T>>` and maps `Matrix::from_vecs` over it.  A decode failure of
the nested vector is an `error`; a panic inside `from_vecs` (empty outer
vector, or a shape mismatch in `from_shape_vec(..).unwrap()`) is `panic`. -/
def deserMatrix {F : Type} (df : List ℕ → Option (F × List ℕ)) (bs : List ℕ) :
    DeResult (Matrix F) :=
  match deserList (deserList df) bs with
  | none => .error
  | some (vecs, rest) =>
    match Matrix.from_vecs vecs with
    | none => .panic
    | some m => .ok m rest

/-- The derived `CanonicalSerialize` for `Commit1`/`Commit2`
(`src/prover/commit.rs`): `coms` then `rand`, in declared field order, so
the commitment's private randomness matrix is written out together with
the public commitments. -/
def serCommit {G F : Type} (sg : G → List ℕ) (sf : F → List ℕ) (c : Commit G F) :
    List ℕ :=
  serList (serCom sg) c.coms ++ serMatrix sf c.rand

/-- The derived `CanonicalDeserialize` for `Commit1`/`Commit2`: `coms`
then `rand`. -/
def deserCommit {G F : Type} (dg : List ℕ → Option (G × List ℕ))
    (df : List ℕ → Option (F × List ℕ)) (bs : List ℕ) : DeResult (Commit G F) :=
  match deserList (deserCom dg) bs with
  | none => .error
  | some (coms, rest) =>
    match deserMatrix df rest with
    | .error => .error
    | .panic => .panic
    | .ok m r2 => .ok ⟨coms, m⟩ r2

/-- The contract of a streaming element codec: decoding after encoding
returns the element and leaves the remaining bytes untouched (the
round-trip law of the external `CanonicalSerialize`/`CanonicalDeserialize`
capability, in either compression mode). -/
def Codec {α : Type} (sf : α → List ℕ) (df : List ℕ → Option (α × List ℕ)) : Prop :=
  ∀ (x : α) (rest : List ℕ), df (sf x ++ rest) = some (x, rest)

/-- A one-byte-per-value codec used to instantiate the external element
codec in concrete witnesses. -/
def serNat (n : ℕ) : List ℕ :=
  [n]

/-- Decoder matching `serNat`. -/
def deserNat : List ℕ → Option (ℕ × List ℕ)
  | [] => none
  | b :: r => some (b, r)

/-- A small concrete CRS over `ℤ` used to instantiate witnesses. -/
def crsZ : CRS ℤ ℤ ℤ :=
  ⟨5, 7, ⟨1, 2⟩, ⟨3, 4⟩, ⟨1, 1⟩, ⟨2, 5⟩⟩

/-- A small concrete CRS over `ℕ` used to instantiate witnesses that also
exercise the byte codec. -/
def crsN : CRS ℕ ℕ ℕ :=
  ⟨5, 7, ⟨1, 2⟩, ⟨3, 4⟩, ⟨1, 1⟩, ⟨2, 5⟩⟩

theorem codec_serNat : Codec serNat deserNat := by
  intro x rest
  rfl

/- Round-trip lemmas for the codec layers. -/

theorem deserBytes_serBytes (k n : ℕ) (rest : List ℕ) (h : n < 256 ^ k) :
    deserBytes k (serBytes k n ++ rest) = some (n, rest) := by
  induction k generalizing n with
  | zero =>
    interval_cases n
    rfl
  | succ k ih =>
    have hdiv : n / 256 < 256 ^ k := by
      rw [Nat.div_lt_iff_lt_mul (by norm_num)]
      calc n < 256 ^ (k + 1) := h
        _ = 256 ^ k * 256 := by ring
    simp only [serBytes, List.cons_append, deserBytes, List.append_eq]
    rw [ih (n / 256) hdiv]
    simp only [Option.map_some']
    rw [Nat.mod_add_div]

theorem deserCount_flatten {α : Type} (sf : α → List ℕ)
    (df : List ℕ → Option (α × List ℕ)) (xs : List α) (rest : List ℕ)
    (h : ∀ x ∈ xs, ∀ r, df (sf x ++ r) = some (x, r)) :
    deserCount df xs.length ((xs.map sf).flatten ++ rest) = some (xs, rest) := by
  induction xs with
  | nil => rfl
  | cons x xs ih =>
    simp only [List.map_cons, List.flatten_cons, List.length_cons, List.append_assoc]
    rw [deserCount, h x (by simp), Option.some_bind,
      ih (fun a ha r => h a (by simp [ha]) r)]
    simp

theorem deserList_serList {α : Type} (sf : α → List ℕ)
    (df : List ℕ → Option (α × List ℕ)) (xs : List α) (rest : List ℕ)
    (h : ∀ x ∈ xs, ∀ r, df (sf x ++ r) = some (x, r)) (hlen : xs.length < 2 ^ 64) :
    deserList df (serList sf xs ++ rest) = some (xs, rest) := by
  have h256 : xs.length < 256 ^ 8 := by
    calc xs.length < 2 ^ 64 := hlen
      _ = 256 ^ 8 := by norm_num
  simp only [serList, deserList, List.append_assoc,
    deserBytes_serBytes 8 xs.length _ h256, Option.bind_some]
  exact deserCount_flatten sf df xs rest h

theorem codec_serCom {G : Type} (sg : G → List ℕ) (dg : List ℕ → Option (G × List ℕ))
    (hg : Codec sg dg) : Codec (serCom sg) (deserCom dg) := by
  intro x rest
  simp only [serCom, deserCom, List.append_assoc, hg x.c0, Option.some_bind, hg x.c1,
    Option.map_some']

theorem to_vecsAux_length {F : Type} (c r : ℕ) (d : List F) :
    (Matrix.to_vecsAux c r d).length = r := by
  induction r generalizing d with
  | zero => rfl
  | succ r ih => simp [Matrix.to_vecsAux, ih]

theorem to_vecsAux_flatten {F : Type} (c r : ℕ) (d : List F) (h : d.length = r * c) :
    (Matrix.to_vecsAux c r d).flatten = d := by
  induction r generalizing d with
  | zero =>
    simp only [Nat.zero_mul] at h
    simp [Matrix.to_vecsAux, List.length_eq_zero.mp h]
  | succ r ih =>
    have hlen : (d.drop c).length = r * c := by
      simp only [List.length_drop, h]
      ring_nf
      omega
    simp only [Matrix.to_vecsAux, List.flatten_cons, ih (d.drop c) hlen,
      List.take_append_drop]

theorem to_vecsAux_mem_length {F : Type} (c r : ℕ) (d : List F) (h : d.length = r * c) :
    ∀ v ∈ Matrix.to_vecsAux c r d, v.length = c := by
  induction r generalizing d with
  | zero => simp [Matrix.to_vecsAux]
  | succ r ih =>
    intro v hv
    simp only [Matrix.to_vecsAux, List.mem_cons] at hv
    rcases hv with hv | hv
    · have : c ≤ d.length := by
        rw [h]
        calc c = 1 * c := (Nat.one_mul c).symm
          _ ≤ (r + 1) * c := Nat.mul_le_mul_right c (by omega)
      simp [hv, List.length_take, Nat.min_eq_left this]
    · exact ih (d.drop c) (by simp [List.length_drop, h]; ring_nf; omega) v hv

/-- The `from_vecs` inverts `to_vecs` on every well-formed matrix with at
least one row. -/
theorem from_vecs_to_vecs {F : Type} (m : Matrix F) (hwf : m.wf) (hr : 1 ≤ m.rows) :
    Matrix.from_vecs m.to_vecs = some m := by
  obtain ⟨rows, cols, data⟩ := m
  unfold Matrix.wf at hwf
  simp only at hwf hr
  obtain ⟨r, rfl⟩ : ∃ r, rows = r + 1 := ⟨rows - 1, by omega⟩
  have hflat := to_vecsAux_flatten cols (r + 1) data hwf
  have hlen := to_vecsAux_length (F := F) cols (r + 1) data
  have hhead : cols ≤ data.length := by
    rw [hwf]
    calc cols = 1 * cols := (Nat.one_mul cols).symm
      _ ≤ (r + 1) * cols := Nat.mul_le_mul_right cols (by omega)
  simp only [Matrix.to_vecs] at hflat hlen ⊢
  rw [Matrix.to_vecsAux] at hflat hlen ⊢
  rw [Matrix.from_vecs]
  simp only [List.flatten_cons] at hflat ⊢
  have htake : (data.take cols).length = cols := by
    simp [List.length_take, Nat.min_eq_left hhead]
  simp [hflat, List.length_cons, to_vecsAux_length, htake, hwf]

/-- Composed round-trip for the `Matrix` codec on well-formed matrices
with at least one row and machine-bounded dimensions. -/
theorem deserMatrix_serMatrix {F : Type} (sf : F → List ℕ)
    (df : List ℕ → Option (F × List ℕ)) (hf : Codec sf df) (m : Matrix F)
    (hwf : m.wf) (hr : 1 ≤ m.rows) (hrows : m.rows < 2 ^ 64) (hcols : m.cols < 2 ^ 64)
    (rest : List ℕ) :
    deserMatrix df (serMatrix sf m ++ rest) = .ok m rest := by
  have houter : m.to_vecs.length = m.rows := by
    simp [Matrix.to_vecs, to_vecsAux_length]
  have hinner : ∀ v ∈ m.to_vecs, ∀ r, deserList df (serList sf v ++ r) = some (v, r) := by
    intro v hv r
    have hvc : v.length = m.cols := to_vecsAux_mem_length m.cols m.rows m.data hwf v hv
    exact deserList_serList sf df v r (fun x _ rr => hf x rr) (by rw [hvc]; exact hcols)
  rw [deserMatrix, serMatrix,
    deserList_serList (serList sf) (deserList df) m.to_vecs rest hinner
      (by rw [houter]; exact hrows)]
  simp [from_vecs_to_vecs m hwf hr]

/-- Composed round-trip for the `Commit1`/`Commit2` codec. -/
theorem deserCommit_serCommit {G F : Type} (sg : G → List ℕ)
    (dg : List ℕ → Option (G × List ℕ)) (sf : F → List ℕ)
    (df : List ℕ → Option (F × List ℕ)) (hg : Codec sg dg) (hf : Codec sf df)
    (c : Commit G F) (hwf : c.rand.wf) (hr : 1 ≤ c.rand.rows)
    (hcoms : c.coms.length < 2 ^ 64) (hrows : c.rand.rows < 2 ^ 64)
    (hcols : c.rand.cols < 2 ^ 64) (rest : List ℕ) :
    deserCommit dg df (serCommit sg sf c ++ rest) = .ok c rest := by
  rw [deserCommit, serCommit, List.append_assoc,
    deserList_serList (serCom sg) (deserCom dg) c.coms _
      (fun x _ r => codec_serCom sg dg hg x r) hcoms]
  simp [deserMatrix_serMatrix sf df hf c.rand hwf hr hrows hcols rest]

/-- Accumulating a list of 2×2 cross-pairings componentwise equals the
four componentwise accumulations of the underlying pairings. -/
theorem foldl_pairing_components {G1 G2 T : Type} [AddCommMonoid T] (e : G1 → G2 → T)
    (xs : List (Com G1)) (ys : List (Com G2)) (a : ComT T) :
    (List.zipWith (ComT.pairing e) xs ys).foldl ComT.add a =
      ⟨(List.zipWith e (xs.map Com.c0) (ys.map Com.c0)).foldl (· + ·) a.t00,
       (List.zipWith e (xs.map Com.c0) (ys.map Com.c1)).foldl (· + ·) a.t01,
       (List.zipWith e (xs.map Com.c1) (ys.map Com.c0)).foldl (· + ·) a.t10,
       (List.zipWith e (xs.map Com.c1) (ys.map Com.c1)).foldl (· + ·) a.t11⟩ := by
  induction xs generalizing ys a with
  | nil => simp [List.zipWith]
  | cons x xs ih =>
    cases ys with
    | nil => simp [List.zipWith]
    | cons y ys =>
      simp only [List.zipWith, List.map_cons, List.foldl_cons]
      exact ih ys (a.add (ComT.pairing e x y))

/-- C3.  For equal-length vectors, the batched `pairing_sum` equals the
`ComT` sum of the individual 2×2 cross-pairings (the `Sum` fold from
`ComT::zero`). -/
theorem claim_C3 {G1 G2 T : Type} [AddCommMonoid T] (e : G1 → G2 → T)
    (xs : List (Com G1)) (ys : List (Com G2)) (h : xs.length = ys.length) :
    pairing_sum e xs ys =
      some ((List.zipWith (ComT.pairing e) xs ys).foldl ComT.add ComT.zero) := by
  rw [pairing_sum, if_pos h, foldl_pairing_components e xs ys ComT.zero]
  rfl

/-- Witness for C3 at concrete two-element vectors over `ℤ` with the
product pairing. -/
theorem claim_C3_witness :
    ([Com.mk (1 : ℤ) 2, Com.mk 3 4].length = [Com.mk (5 : ℤ) 6, Com.mk 7 8].length) ∧
    pairing_sum (fun a b : ℤ => a * b) [Com.mk 1 2, Com.mk 3 4] [Com.mk 5 6, Com.mk 7 8] =
      some ((List.zipWith (ComT.pairing (fun a b : ℤ => a * b))
        [Com.mk 1 2, Com.mk 3 4] [Com.mk 5 6, Com.mk 7 8]).foldl ComT.add ComT.zero) :=
  ⟨by decide, claim_C3 (fun a b : ℤ => a * b) _ _ (by decide)⟩

/-- C9.  `pairing_sum` on inputs of different lengths hits the eager
length assertion (modelled as `none`) before any pairing is computed, and
under the equal-length precondition the assertion branch is unreachable. -/
theorem claim_C9 {G1 G2 T : Type} [AddCommMonoid T] (e : G1 → G2 → T)
    (xs : List (Com G1)) (ys : List (Com G2)) :
    (xs.length ≠ ys.length → pairing_sum e xs ys = none) ∧
    (xs.length = ys.length → (pairing_sum e xs ys).isSome) := by
  constructor
  · intro h
    rw [pairing_sum, if_neg h]
  · intro h
    rw [pairing_sum, if_pos h]
    rfl

/-- Witness for C9: a length-mismatched pair is rejected, an equal-length
pair is accepted. -/
theorem claim_C9_witness :
    pairing_sum (fun a b : ℤ => a * b) [] [Com.mk 3 5] = none ∧
    (pairing_sum (fun a b : ℤ => a * b) [Com.mk 1 2] [Com.mk 3 4]).isSome :=
  ⟨(claim_C9 (fun a b : ℤ => a * b) [] [Com.mk 3 5]).1 (by decide),
   (claim_C9 (fun a b : ℤ => a * b) [Com.mk 1 2] [Com.mk 3 4]).2 (by decide)⟩

/-- C7.  `scalar_linear_map b x p` is `scalar_mul (b + linear_map p) x`
with `linear_map p = (O, p)`: componentwise it scales `b.c0` and scales
`b.c1 + p`, i.e. the addition of `p` happens before the scaling by `x`. -/
theorem claim_C7 {G F : Type} [AddCommMonoid G] [SMul F G] (b : Com G) (x : F) (p : G) :
    Com.scalar_linear_map b x p = (b.add (Com.linear_map p)).scalar_mul x ∧
    Com.scalar_linear_map b x p = Com.mk (x • b.c0) (x • (b.c1 + p)) ∧
    (Com.linear_map p : Com G) = Com.mk 0 p := by
  refine ⟨rfl, ?_, rfl⟩
  simp [Com.scalar_linear_map, Com.add, Com.linear_map, Com.scalar_mul]

/-- C8.  The commitment-group elements form a module over the scalar
field: distributivity of the scalar action over addition, action of one
and zero, additive identity and inverses, all componentwise. -/
theorem claim_C8 {G F : Type} [AddCommGroup G] [CommRing F] [Module F G]
    (a b : Com G) (s : F) :
    (a.add b).scalar_mul s = (a.scalar_mul s).add (b.scalar_mul s) ∧
    a.scalar_mul (1 : F) = a ∧
    a.scalar_mul (0 : F) = (Com.zero : Com G) ∧
    (Com.zero : Com G).add a = a ∧
    a.add a.neg = (Com.zero : Com G) := by
  obtain ⟨a0, a1⟩ := a
  obtain ⟨b0, b1⟩ := b
  refine ⟨?_, ?_, ?_, ?_, ?_⟩ <;>
    simp [Com.add, Com.neg, Com.zero, Com.scalar_mul, smul_add]

/-- C6.  In the primary algebra module, pairing a zero `Com1` (in
particular `linear_map O`) with any `Com2` gives `ComT::zero()`, the
additive zero of `GT` in every cell, and symmetrically for a zero `Com2`;
the legacy duplicate module's pairing instead maps a zero commitment to
the multiplicative identity of `Fqk` in those cells. -/
theorem claim_C6 {G1 G2 T Fqk : Type} [AddCommMonoid G1] [AddCommMonoid G2]
    [AddCommMonoid T] [CommMonoid Fqk]
    (e : G1 → G2 → T) (eL : G1 → G2 → Fqk)
    (he1 : ∀ y, e 0 y = 0) (he2 : ∀ x, e x 0 = 0)
    (hL1 : ∀ y, eL 0 y = 1) (hL2 : ∀ x, eL x 0 = 1) :
    (Com.linear_map (0 : G1) = (Com.zero : Com G1)) ∧
    (∀ y : Com G2, ComT.pairing e Com.zero y = ComT.zero) ∧
    (∀ x : Com G1, ComT.pairing e x Com.zero = ComT.zero) ∧
    (∀ y : DataStructures.Com2 G2,
      DataStructures.ComT.pairing eL DataStructures.Com1.zero y = DataStructures.ComT.ones) ∧
    (∀ x : DataStructures.Com1 G1,
      DataStructures.ComT.pairing eL x DataStructures.Com2.zero = DataStructures.ComT.ones) := by
  refine ⟨rfl, ?_, ?_, ?_, ?_⟩ <;> intro z <;>
    simp [Com.zero, ComT.pairing, ComT.zero, DataStructures.Com1.zero,
      DataStructures.Com2.zero, DataStructures.ComT.pairing, DataStructures.ComT.ones,
      he1, he2, hL1, hL2]

/-- Witness for C6 with the product pairing on `ℤ` and its multiplicative
wrapper for the legacy `Fqk`. -/
theorem claim_C6_witness :
    ComT.pairing (fun a b : ℤ => a * b) Com.zero (Com.mk 2 3) = ComT.zero ∧
    DataStructures.ComT.pairing (fun a b : ℤ => Multiplicative.ofAdd (a * b))
      DataStructures.Com1.zero (DataStructures.Com2.mk 2 3) = DataStructures.ComT.ones :=
  ⟨(claim_C6 (fun a b : ℤ => a * b) (fun a b : ℤ => Multiplicative.ofAdd (a * b))
      (fun y => by simp) (fun x => by simp)
      (fun y => by simp) (fun x => by simp)).2.1 (Com.mk 2 3),
   (claim_C6 (fun a b : ℤ => a * b) (fun a b : ℤ => Multiplicative.ofAdd (a * b))
      (fun y => by simp) (fun x => by simp)
      (fun y => by simp) (fun x => by simp)).2.2.2.1 (DataStructures.Com2.mk 2 3)⟩

/-- C2.  `commit_G1` draws exactly two fresh scalars from the source (the
returned stream position advances by exactly 2) and returns the single
commitment `linear_map x + u0·r1 + u1·r2` with randomness matrix
`[[r1, r2]]`. -/
theorem claim_C2 {G1 G2 F : Type} [AddCommMonoid G1] [AddCommMonoid G2]
    [SMul F G1] [SMul F G2] [Zero F]
    (x : G1) (key : CRS G1 G2 F) (s : ℕ → F) (p : ℕ) :
    commit_G1 x key s p =
      ({ coms := [((Com.linear_map x).add (key.u0.scalar_mul (s p))).add
            (key.u1.scalar_mul (s (p + 1)))],
         rand := ⟨1, 2, [s p, s (p + 1)]⟩ }, p + 2) := by
  simp [commit_G1, vec_to_col_vec, Matrix.get, CRS.u]

/-- Collapsing `flatMap` over singleton images to `map`. -/
theorem flatMap_singleton_map {α β : Type} (g : α → β) (l : List α) :
    (l.flatMap fun x => [g x]) = l.map g := by
  induction l with
  | nil => rfl
  | cons a l ih => simp [ih]

/-- The flat data of `left_mul` of the 2×1 CRS column `u` by an `m × 2`
randomness matrix: one accumulated cell per row of the multiplier. -/
theorem left_mul_u_data {G F : Type} [AddCommMonoid G] [SMul F G] [Zero F]
    (u0 u1 : Com G) (R : Matrix F) :
    (vec_to_col_vec [u0, u1]).left_mul R =
      ⟨R.rows, 1, (List.range R.rows).map (fun i =>
        ((Com.zero.add (u0.scalar_mul (R.get i 0))).add (u1.scalar_mul (R.get i 1))))⟩ := by
  have h2 : List.range 2 = [0, 1] := rfl
  have h1 : List.range 1 = [0] := rfl
  simp [Matrix.left_mul, vec_to_col_vec, h1, h2, List.foldl, flatMap_singleton_map]

/-- Entry access in a zipped list. -/
theorem zipWith_getElem? {α β γ : Type} (f : α → β → γ) (as : List α) (bs : List β)
    (k : ℕ) (h1 : k < as.length) (h2 : k < bs.length) :
    (List.zipWith f as bs)[k]? = some (f (as.get ⟨k, h1⟩) (bs.get ⟨k, h2⟩)) := by
  rw [List.getElem?_eq_getElem (by simp [List.length_zipWith]; omega)]
  simp [List.getElem_zipWith]

/-- Regrouping a fold of two scaled CRS entries against the base
commitment: componentwise associativity and the zero law. -/
theorem com_add_zero_assoc {G : Type} [AddCommMonoid G] (x a b : Com G) :
    x.add ((Com.zero.add a).add b) = (x.add a).add b := by
  obtain ⟨x0, x1⟩ := x
  obtain ⟨a0, a1⟩ := a
  obtain ⟨b0, b1⟩ := b
  simp [Com.add, Com.zero, add_assoc]

/-- C1.  `batch_commit_G1` returns a randomness matrix of dimensions
`m × 2` and `m` commitments, and its `k`-th commitment is exactly the
single-element `commit_G1` formula instantiated with the `k`-th row of
the randomness matrix: the batched `lin_x + left_mul(u_col, R)` agrees
entrywise with the single-element computation. -/
theorem claim_C1 {G1 G2 F : Type} [AddCommMonoid G1] [AddCommMonoid G2]
    [SMul F G1] [SMul F G2] [Zero F]
    (xs : List G1) (key : CRS G1 G2 F) (s : ℕ → F) (p k : ℕ) (hk : k < xs.length) :
    ((batch_commit_G1 xs key s p).1.rand.rows = xs.length) ∧
    ((batch_commit_G1 xs key s p).1.rand.cols = 2) ∧
    ((batch_commit_G1 xs key s p).1.coms.length = xs.length) ∧
    ((batch_commit_G1 xs key s p).1.coms[k]? =
      ((commit_G1 (xs.getD k 0) key
        (fun n => (batch_commit_G1 xs key s p).1.rand.get k n) 0).1.coms)[0]?) := by
  have hrand : (batch_commit_G1 xs key s p).1.rand = (Matrix.rand s p xs.length 2).1 := rfl
  have hcoms : (batch_commit_G1 xs key s p).1.coms =
      List.zipWith (· + ·) (xs.map Com.linear_map)
        ((List.range xs.length).map (fun i =>
          ((Com.zero.add
              (key.u0.scalar_mul ((Matrix.rand s p xs.length 2).1.get i 0))).add
            (key.u1.scalar_mul ((Matrix.rand s p xs.length 2).1.get i 1))))) := by
    show col_vec_to_vec ((vec_to_col_vec (Com.batch_linear_map xs)).add
      ((vec_to_col_vec key.u).left_mul (Matrix.rand s p xs.length 2).1)) = _
    rw [CRS.u, left_mul_u_data key.u0 key.u1]
    simp only [col_vec_to_vec, Matrix.add, vec_to_col_vec, Com.batch_linear_map,
      Matrix.rand]
  refine ⟨rfl, rfl, ?_, ?_⟩
  · rw [hcoms]
    simp [List.length_zipWith]
  · rw [hcoms, hrand,
      zipWith_getElem? (· + ·) _ _ k (by simp [hk]) (by simp [hk])]
    simp only [commit_G1, vec_to_col_vec, Matrix.get, CRS.u]
    simp only [List.get_eq_getElem, List.getElem_map, List.getElem_range]
    have hgetD : xs.getD k 0 = xs[k] := by
      rw [List.getD_eq_getElem?_getD, List.getElem?_eq_getElem hk]
      rfl
    have hadd : ∀ a b : Com G1, a + b = a.add b := fun _ _ => rfl
    simp only [hgetD, hadd, List.getD]
    rw [com_add_zero_assoc]
    simp [List.getElem?_eq_getElem hk]

/-- Witness for C1 at a concrete two-element batch over `ℤ`. -/
theorem claim_C1_witness :
    1 < ([(2 : ℤ), 3] : List ℤ).length ∧
    (((batch_commit_G1 [(2 : ℤ), 3] crsZ (fun n => (n : ℤ) + 1) 0).1.rand.rows =
        ([(2 : ℤ), 3] : List ℤ).length) ∧
     ((batch_commit_G1 [(2 : ℤ), 3] crsZ (fun n => (n : ℤ) + 1) 0).1.rand.cols = 2) ∧
     ((batch_commit_G1 [(2 : ℤ), 3] crsZ (fun n => (n : ℤ) + 1) 0).1.coms.length =
        ([(2 : ℤ), 3] : List ℤ).length) ∧
     ((batch_commit_G1 [(2 : ℤ), 3] crsZ (fun n => (n : ℤ) + 1) 0).1.coms[1]? =
       ((commit_G1 (([(2 : ℤ), 3] : List ℤ).getD 1 0) crsZ
         (fun n => (batch_commit_G1 [(2 : ℤ), 3] crsZ (fun n => (n : ℤ) + 1) 0).1.rand.get 1 n)
         0).1.coms)[0]?)) :=
  ⟨by decide, claim_C1 [(2 : ℤ), 3] crsZ (fun n => (n : ℤ) + 1) 0 1 (by decide)⟩

/-- C4 (amended).  Round-trip of the canonical encodings: `Com1`/`Com2`
round-trip for every value; `Matrix` and `Commit1`/`Commit2` round-trip
for every well-formed value whose matrix has at least one row (and
machine-bounded dimensions).  Parametric in the element codec, hence
valid for both the compressed and the uncompressed mode. -/
theorem claim_C4 {G F : Type} (sg : G → List ℕ) (dg : List ℕ → Option (G × List ℕ))
    (sf : F → List ℕ) (df : List ℕ → Option (F × List ℕ))
    (hg : Codec sg dg) (hf : Codec sf df) :
    (∀ (x : Com G) (rest : List ℕ), deserCom dg (serCom sg x ++ rest) = some (x, rest)) ∧
    (∀ (m : Matrix F) (rest : List ℕ), m.wf → 1 ≤ m.rows →
      m.rows < 2 ^ 64 → m.cols < 2 ^ 64 →
      deserMatrix df (serMatrix sf m ++ rest) = .ok m rest) ∧
    (∀ (c : Commit G F) (rest : List ℕ), c.rand.wf → 1 ≤ c.rand.rows →
      c.coms.length < 2 ^ 64 → c.rand.rows < 2 ^ 64 → c.rand.cols < 2 ^ 64 →
      deserCommit dg df (serCommit sg sf c ++ rest) = .ok c rest) :=
  ⟨fun x rest => codec_serCom sg dg hg x rest,
   fun m rest hwf hr h1 h2 => deserMatrix_serMatrix sf df hf m hwf hr h1 h2 rest,
   fun c rest hwf hr h0 h1 h2 =>
     deserCommit_serCommit sg dg sf df hg hf c hwf hr h0 h1 h2 rest⟩

/-- Witness for C4 with the one-byte codec at concrete values of every
structure. -/
theorem claim_C4_witness :
    deserCom deserNat (serCom serNat (Com.mk (5 : ℕ) 6) ++ [7]) =
      some (Com.mk (5 : ℕ) 6, [7]) ∧
    deserMatrix deserNat (serMatrix serNat (Matrix.mk 1 2 [(3 : ℕ), 4]) ++ [9]) =
      DeResult.ok (Matrix.mk 1 2 [(3 : ℕ), 4]) [9] ∧
    deserCommit deserNat deserNat
      (serCommit serNat serNat (Commit.mk [Com.mk (1 : ℕ) 2] (Matrix.mk 1 2 [3, 4])) ++ []) =
      DeResult.ok (Commit.mk [Com.mk (1 : ℕ) 2] (Matrix.mk 1 2 [3, 4])) [] :=
  ⟨(claim_C4 serNat deserNat serNat deserNat codec_serNat codec_serNat).1 _ _,
   (claim_C4 serNat deserNat serNat deserNat codec_serNat codec_serNat).2.1 _ _
     (by decide) (by decide) (by decide) (by decide),
   (claim_C4 serNat deserNat serNat deserNat codec_serNat codec_serNat).2.2 _ _
     (by decide) (by decide) (by decide) (by decide) (by decide)⟩

/-- Counterexample to C4 as stated: deserializing the serialization of
the zero-row matrix `zeros_column 2` does not return the matrix — it hits
the `vecs[0]` panic in `from_vecs` (and the column count 2 is not even
present in the serialized bytes, which are just the `u64` length prefix
0). -/
theorem claim_C4_counterexample :
    deserMatrix deserNat (serMatrix serNat (Matrix.zeros_column 2 : Matrix ℕ)) =
      DeResult.panic ∧
    DeResult.panic ≠ DeResult.ok (Matrix.zeros_column 2 : Matrix ℕ) [] := by
  decide

/-- C5.  The byte string `0x00 × 8` (a valid outer length prefix of 0)
makes `Matrix` deserialization panic in `from_vecs` instead of returning
a decode failure, as does an input decoding to ragged rows (the
`from_shape_vec(..).unwrap()` panic); a truncated prefix, by contrast,
is surfaced as a decode failure as the spec demands. -/
theorem claim_C5_bug :
    deserMatrix deserNat [0, 0, 0, 0, 0, 0, 0, 0] = (DeResult.panic : DeResult (Matrix ℕ)) ∧
    deserMatrix deserNat (serList (serList serNat) [[], [5]]) =
      (DeResult.panic : DeResult (Matrix ℕ)) ∧
    deserMatrix deserNat [1, 0, 0] = (DeResult.error : DeResult (Matrix ℕ)) := by
  decide

/-- C10.  Every commit function returns the drawn private randomness
inside the returned `Commit1`/`Commit2` structure; the derived canonical
serialization writes the randomness matrix alongside the `coms` vector
(so the commitment's bytes determine, and a deserializer recovers, the
private randomness); and equality on `Commit1`/`Commit2` compares the
randomness field as well as the commitments. -/
theorem claim_C10 {G1 G2 F : Type} [AddCommMonoid G1] [AddCommMonoid G2]
    [SMul F G1] [SMul F G2] [Zero F]
    (x : G1) (y : G2) (f : F) (xs : List G1) (ys : List G2) (fs : List F)
    (key : CRS G1 G2 F) (s : ℕ → F) (p : ℕ)
    (sg : G1 → List ℕ) (dg : List ℕ → Option (G1 × List ℕ))
    (sf : F → List ℕ) (df : List ℕ → Option (F × List ℕ))
    (hg : Codec sg dg) (hf : Codec sf df) :
    ((commit_G1 x key s p).1.rand = (⟨1, 2, [s p, s (p + 1)]⟩ : Matrix F)) ∧
    ((batch_commit_G1 xs key s p).1.rand = (Matrix.rand s p xs.length 2).1) ∧
    ((commit_scalar_to_B1 f key s p).1.rand = (⟨1, 1, [s p]⟩ : Matrix F)) ∧
    ((batch_commit_scalar_to_B1 fs key s p).1.rand = (Matrix.rand s p fs.length 1).1) ∧
    ((commit_G2 y key s p).1.rand = (⟨1, 2, [s p, s (p + 1)]⟩ : Matrix F)) ∧
    ((batch_commit_G2 ys key s p).1.rand = (Matrix.rand s p ys.length 2).1) ∧
    ((commit_scalar_to_B2 f key s p).1.rand = (⟨1, 1, [s p]⟩ : Matrix F)) ∧
    ((batch_commit_scalar_to_B2 fs key s p).1.rand = (Matrix.rand s p fs.length 1).1) ∧
    (serCommit sg sf (commit_G1 x key s p).1 =
      serList (serCom sg) (commit_G1 x key s p).1.coms ++
        serMatrix sf (commit_G1 x key s p).1.rand) ∧
    (deserCommit dg df (serCommit sg sf (commit_G1 x key s p).1) =
      DeResult.ok (commit_G1 x key s p).1 []) ∧
    (∀ c1 c2 : Commit G1 F, c1 = c2 ↔ c1.coms = c2.coms ∧ c1.rand = c2.rand) := by
  refine ⟨rfl, rfl, rfl, rfl, rfl, rfl, rfl, rfl, rfl, ?_, ?_⟩
  · have h := deserCommit_serCommit sg dg sf df hg hf (commit_G1 x key s p).1
      (by simp [commit_G1, Matrix.wf]) (by norm_num [commit_G1])
      (by norm_num [commit_G1]) (by norm_num [commit_G1]) (by norm_num [commit_G1]) []
    rwa [List.append_nil] at h
  · intro c1 c2
    constructor
    · rintro rfl
      exact ⟨rfl, rfl⟩
    · obtain ⟨cs1, r1⟩ := c1
      obtain ⟨cs2, r2⟩ := c2
      rintro ⟨h1, h2⟩
      simp_all

/-- Witness for C10: a concrete commit over `ℕ` whose returned randomness
is the drawn stream values and whose serialization round-trips. -/
theorem claim_C10_witness :
    ((commit_G1 (3 : ℕ) crsN (fun n => n) 0).1.rand = (⟨1, 2, [0, 1]⟩ : Matrix ℕ)) ∧
    deserCommit deserNat deserNat
      (serCommit serNat serNat (commit_G1 (3 : ℕ) crsN (fun n => n) 0).1) =
      DeResult.ok (commit_G1 (3 : ℕ) crsN (fun n => n) 0).1 [] := by
  have h := claim_C10 (3 : ℕ) (0 : ℕ) (0 : ℕ) [] [] [] crsN (fun n => n) 0
    serNat deserNat serNat deserNat codec_serNat codec_serNat
  exact ⟨h.1, h.2.2.2.2.2.2.2.2.2.1⟩

end GS
